import Mathlib

set_option autoImplicit false

/-!
# Verification of the gosh shell's pipeline executor and job-control subsystem

Shallow embedding of the Go sources of `github.com/apriljarosz/gosh`:
the job manager (`internal/jobs`), the pipeline executor
(`internal/executor`), the builtin dispatch table (`internal/builtins`)
and the pipeline parser (`internal/input.ParsePipeline`).

OS interactions (file opens, pipe creation, process spawning, signal
delivery, process waits) are modelled by explicit oracles/parameters:
a `Bool`/`Option` telling whether the call succeeds and what it returns.
All definitions mirror the Go control flow; results record the
externally visible effects (wiring of the spawned processes, pipe
connections, printed notices, errors, job-table calls).
-/

namespace Gosh

/-! ## Job manager (`internal/jobs/jobs.go`)

`time.Now()` is modelled by passing the current instant as a `Nat`
parameter, `*os.Process` by its pid, and `syscall.Kill` /
`Process.Wait` results by `Bool` success parameters.  The Go
`map[int]*Job` is modelled as a list of jobs keyed by `Job.id`
(insertion replaces an existing key, like map assignment). -/

inductive JobState where
| running
| stopped
| done
deriving DecidableEq

structure Job where
  id : Nat
  pid : Nat
  pgid : Nat
  command : String
  state : JobState
  exitCode : Int
  startTime : Nat
deriving DecidableEq

structure JobManager where
  jobs : List Job
  nextID : Nat
deriving DecidableEq

def NewJobManager : JobManager :=
  { jobs := [], nextID := 1 }

/-- Go map assignment `jm.jobs[id] = job`: replace the entry with the
same key if present, otherwise add the entry. -/
def mapInsert (l : List Job) (j : Job) : List Job :=
  if l.any (fun x => x.id == j.id) then
    l.map (fun x => if x.id == j.id then j else x)
  else
    l ++ [j]

/-- `AddJob`: allocate the next id, record pid as both pid and pgid,
state `Running`, store the job and bump the counter.  Returns the new
job together with the updated manager.  (The `go jm.monitorJob(job)`
launch is asynchronous; its eventual effect is modelled as the separate
trace operation `JMOp.monitorExit` below.) -/
def AddJob (jm : JobManager) (pid : Nat) (command : String) (now : Nat) :
    Job × JobManager :=
  let job : Job :=
    { id := jm.nextID, pid := pid, pgid := pid, command := command,
      state := .running, exitCode := 0, startTime := now }
  (job, { jm with jobs := mapInsert jm.jobs job, nextID := jm.nextID + 1 })

/-- `GetJob`: map lookup `jm.jobs[id]` (`nil` becomes `none`). -/
def GetJob (jm : JobManager) (id : Nat) : Option Job :=
  jm.jobs.find? (fun j => j.id == id)

/-- `GetJobs`: all jobs. -/
def GetJobs (jm : JobManager) : List Job :=
  jm.jobs

/-- `GetActiveJobs`: jobs whose state is `Running` or `Stopped`. -/
def GetActiveJobs (jm : JobManager) : List Job :=
  jm.jobs.filter (fun j => j.state == .running || j.state == .stopped)

/-- `RemoveJob`: map `delete(jm.jobs, id)`. -/
def RemoveJob (jm : JobManager) (id : Nat) : JobManager :=
  { jm with jobs := jm.jobs.filter (fun j => !(j.id == id)) }

/-- `CleanupDoneJobs`: delete every entry whose state is `Done`. -/
def CleanupDoneJobs (jm : JobManager) : JobManager :=
  { jm with jobs := jm.jobs.filter (fun j => !(j.state == JobState.done)) }

/-- In Go a `*Job` is mutated through the pointer stored in the map;
here the entry with the given id is updated in place. -/
def setJobState (jm : JobManager) (id : Nat) (s : JobState) : JobManager :=
  { jm with jobs := jm.jobs.map (fun j => if j.id == id then { j with state := s } else j) }

def setJobStateExit (jm : JobManager) (id : Nat) (s : JobState) (ec : Int) : JobManager :=
  { jm with jobs :=
      jm.jobs.map (fun j => if j.id == id then { j with state := s, exitCode := ec } else j) }

inductive JobError where
| notFound (id : Nat)
| alreadyDone (id : Nat)
| notRunning (id : Nat)
| signalFailed (id : Nat)
| waitFailed (id : Nat)
deriving DecidableEq

/-- `StopJob`: absent → not-found; state ≠ Running → error; send
SIGSTOP (success given by `sigOk`); on delivery failure report and keep
state; on success set state `Stopped`. -/
def StopJob (jm : JobManager) (id : Nat) (sigOk : Bool) :
    Option JobError × JobManager :=
  match GetJob jm id with
  | none => (some (.notFound id), jm)
  | some job =>
    if job.state ≠ .running then (some (.notRunning id), jm)
    else if !sigOk then (some (.signalFailed id), jm)
    else (none, setJobState jm id .stopped)

/-- `KillJob`: absent → not-found; `Done` → already-done; send SIGTERM;
on delivery failure keep state; on success set state `Done` with the
sentinel exit code `-1`. -/
def KillJob (jm : JobManager) (id : Nat) (sigOk : Bool) :
    Option JobError × JobManager :=
  match GetJob jm id with
  | none => (some (.notFound id), jm)
  | some job =>
    if job.state = .done then (some (.alreadyDone id), jm)
    else if !sigOk then (some (.signalFailed id), jm)
    else (none, setJobStateExit jm id .done (-1))

/-- `BringToForeground`: absent → not-found; `Done` → already-done; if
`Stopped`, send SIGCONT (failure keeps state and aborts); set state
`Running`; wait on the process (`waitOk`, natural exit code `ec`);
wait failure aborts after the `Running` write; on success set `Done`
and record the exit code. -/
def BringToForeground (jm : JobManager) (id : Nat)
    (contOk : Bool) (waitOk : Bool) (ec : Int) :
    Option JobError × JobManager :=
  match GetJob jm id with
  | none => (some (.notFound id), jm)
  | some job =>
    if job.state = .done then (some (.alreadyDone id), jm)
    else if job.state = .stopped ∧ contOk = false then (some (.signalFailed id), jm)
    else if !waitOk then (some (.waitFailed id), setJobState jm id .running)
    else (none, setJobStateExit (setJobState jm id .running) id .done ec)

/-- `SendToBackground`: absent → not-found; `Done` → already-done; if
`Stopped`, send SIGCONT and on success set state `Running`; if already
`Running`, succeed without touching anything. -/
def SendToBackground (jm : JobManager) (id : Nat) (contOk : Bool) :
    Option JobError × JobManager :=
  match GetJob jm id with
  | none => (some (.notFound id), jm)
  | some job =>
    if job.state = .done then (some (.alreadyDone id), jm)
    else if job.state = .stopped then
      if !contOk then (some (.signalFailed id), jm)
      else (none, setJobState jm id .running)
    else (none, jm)

/-- `monitorJob`'s effect when the monitored process exits naturally:
set state `Done` and record the real exit code. -/
def monitorExit (jm : JobManager) (id : Nat) (ec : Int) : JobManager :=
  setJobStateExit jm id .done ec

/-! ### Operation traces over one `JobManager` -/

/-- One call against a `JobManager`, with its oracle inputs. -/
inductive JMOp where
| add (pid : Nat) (command : String) (now : Nat)
| remove (id : Nat)
| cleanup
| stop (id : Nat) (sigOk : Bool)
| kill (id : Nat) (sigOk : Bool)
| fg (id : Nat) (contOk waitOk : Bool) (ec : Int)
| bg (id : Nat) (contOk : Bool)
| monitorExit (id : Nat) (ec : Int)

def applyOp (jm : JobManager) : JMOp → JobManager
| .add pid command now => (AddJob jm pid command now).2
| .remove id => RemoveJob jm id
| .cleanup => CleanupDoneJobs jm
| .stop id sigOk => (StopJob jm id sigOk).2
| .kill id sigOk => (KillJob jm id sigOk).2
| .fg id contOk waitOk ec => (BringToForeground jm id contOk waitOk ec).2
| .bg id contOk => (SendToBackground jm id contOk).2
| .monitorExit id ec => monitorExit jm id ec

/-- The id handed out by an operation: `AddJob` returns the new job,
whose id it assigned; no other operation assigns an id. -/
def assignedId (jm : JobManager) : JMOp → Option Nat
| .add pid command now => some (AddJob jm pid command now).1.id
| _ => none

/-- The ids assigned along a trace of calls, in call order. -/
def assignedIds (jm : JobManager) : List JMOp → List Nat
| [] => []
| op :: rest =>
  (assignedId jm op).toList ++ assignedIds (applyOp jm op) rest

/-! ### Job-manager lemmas -/

theorem nextID_setJobState (jm : JobManager) (id : Nat) (s : JobState) :
    (setJobState jm id s).nextID = jm.nextID := rfl

theorem nextID_applyOp (jm : JobManager) (op : JMOp) :
    jm.nextID ≤ (applyOp jm op).nextID := by
  cases op with
  | add pid command now => exact Nat.le_succ _
  | remove id => exact Nat.le_refl _
  | cleanup => exact Nat.le_refl _
  | stop id sigOk =>
    simp only [applyOp, StopJob]
    rcases GetJob jm id with _ | job
    · exact Nat.le_refl _
    · simp only []
      split_ifs <;> exact Nat.le_refl _
  | kill id sigOk =>
    simp only [applyOp, KillJob]
    rcases GetJob jm id with _ | job
    · exact Nat.le_refl _
    · simp only []
      split_ifs <;> exact Nat.le_refl _
  | fg id contOk waitOk ec =>
    simp only [applyOp, BringToForeground]
    rcases GetJob jm id with _ | job
    · exact Nat.le_refl _
    · simp only []
      split_ifs <;> exact Nat.le_refl _
  | bg id contOk =>
    simp only [applyOp, SendToBackground]
    rcases GetJob jm id with _ | job
    · exact Nat.le_refl _
    · simp only []
      split_ifs <;> exact Nat.le_refl _
  | monitorExit id ec => exact Nat.le_refl _

theorem assignedId_eq_nextID (jm : JobManager) (op : JMOp) (i : Nat)
    (h : assignedId jm op = some i) :
    i = jm.nextID ∧ (applyOp jm op).nextID = jm.nextID + 1 := by
  cases op with
  | add pid command now =>
    simp only [assignedId, AddJob, Option.some.injEq] at h
    exact ⟨h.symm, rfl⟩
  | remove id => simp [assignedId] at h
  | cleanup => simp [assignedId] at h
  | stop id sigOk => simp [assignedId] at h
  | kill id sigOk => simp [assignedId] at h
  | fg id contOk waitOk ec => simp [assignedId] at h
  | bg id contOk => simp [assignedId] at h
  | monitorExit id ec => simp [assignedId] at h

theorem assignedIds_lower_bound (ops : List JMOp) :
    ∀ (jm : JobManager), ∀ i ∈ assignedIds jm ops, jm.nextID ≤ i := by
  induction ops with
  | nil => intro jm i h; simp [assignedIds] at h
  | cons op rest ih =>
    intro jm i h
    simp only [assignedIds, List.mem_append] at h
    rcases h with h | h
    · cases hop : assignedId jm op with
      | none => rw [hop] at h; simp at h
      | some j =>
        rw [hop] at h
        simp only [Option.toList_some, List.mem_singleton] at h
        have hj := (assignedId_eq_nextID jm op j hop).1
        omega
    · calc jm.nextID ≤ (applyOp jm op).nextID := nextID_applyOp jm op
        _ ≤ i := ih (applyOp jm op) i h

theorem assignedIds_pairwise (ops : List JMOp) :
    ∀ (jm : JobManager), List.Pairwise (· < ·) (assignedIds jm ops) := by
  induction ops with
  | nil => intro jm; simp [assignedIds]
  | cons op rest ih =>
    intro jm
    simp only [assignedIds]
    cases hop : assignedId jm op with
    | none => simpa using ih (applyOp jm op)
    | some j =>
      simp only [Option.toList_some, List.singleton_append, List.pairwise_cons]
      constructor
      · intro i hi
        have h1 := (assignedId_eq_nextID jm op j hop).1
        have h2 := (assignedId_eq_nextID jm op j hop).2
        have h3 := assignedIds_lower_bound rest (applyOp jm op) i hi
        omega
      · exact ih (applyOp jm op)

/-- **C3.** Along every trace of calls on one job manager, the ids
handed out by `AddJob` are strictly increasing (each later id exceeds
every earlier one) and no id is ever assigned twice, including after
`RemoveJob` / `CleanupDoneJobs` (or any other operation) has run. -/
theorem addJob_ids_strictly_increasing (ops : List JMOp) :
    List.Pairwise (· < ·) (assignedIds NewJobManager ops) ∧
      (assignedIds NewJobManager ops).Nodup := by
  refine ⟨assignedIds_pairwise ops NewJobManager, ?_⟩
  exact (assignedIds_pairwise ops NewJobManager).imp (fun h => Nat.ne_of_lt h)

/-- Looking up a key in a list after updating the entry with that key
in place, where the update preserves the key. -/
theorem find?_map_update (l : List Job) (id : Nat) (f : Job → Job)
    (hf : ∀ j, (f j).id = j.id) :
    (l.map (fun j => if j.id == id then f j else j)).find? (fun j => j.id == id) =
      (l.find? (fun j => j.id == id)).map f := by
  induction l with
  | nil => rfl
  | cons j rest ih =>
    by_cases h : (j.id == id) = true
    · have hh : ((if (j.id == id) = true then f j else j).id == id) = true := by
        simp [h, hf]
      rw [List.map_cons, List.find?_cons, List.find?_cons, hh, h]
      simp [h]
    · have hb : (j.id == id) = false := by simpa using h
      have hh : ((if (j.id == id) = true then f j else j).id == id) = false := by
        simp [hb]
      rw [List.map_cons, List.find?_cons, List.find?_cons, hh, hb]
      exact ih

/-- `GetJob` after an in-place state update: the looked-up job is the
original one with its state field replaced. -/
theorem getJob_setJobState (jm : JobManager) (id : Nat) (s : JobState) :
    GetJob (setJobState jm id s) id =
      (GetJob jm id).map (fun j => { j with state := s }) := by
  simpa only [GetJob, setJobState] using
    find?_map_update jm.jobs id (fun j => { j with state := s }) (fun j => rfl)

theorem getJob_setJobStateExit (jm : JobManager) (id : Nat) (s : JobState) (ec : Int) :
    GetJob (setJobStateExit jm id s ec) id =
      (GetJob jm id).map (fun j => { j with state := s, exitCode := ec }) := by
  simpa only [GetJob, setJobStateExit] using
    find?_map_update jm.jobs id (fun j => { j with state := s, exitCode := ec })
      (fun j => rfl)

/-- **C7.** `StopJob` succeeds exactly when the job exists, its state
is `Running`, and the stop signal is delivered; then the job's state
becomes `Stopped`.  On every failure (absent job, state `Stopped` or
`Done`, or signal-delivery failure) the manager is left unchanged. -/
theorem stopJob_spec (jm : JobManager) (id : Nat) (sigOk : Bool) :
    ((StopJob jm id sigOk).1 = none ↔
        (∃ j, GetJob jm id = some j ∧ j.state = .running) ∧ sigOk = true) ∧
      (∀ j, GetJob jm id = some j → j.state = .running → sigOk = true →
        GetJob (StopJob jm id sigOk).2 id = some { j with state := .stopped }) ∧
      ((StopJob jm id sigOk).1 ≠ none → (StopJob jm id sigOk).2 = jm) := by
  simp only [StopJob]
  rcases hg : GetJob jm id with _ | job
  · refine ⟨by simp, ?_, by simp⟩
    intro j hj; cases hj
  · by_cases hs : job.state = .running
    · by_cases hok : sigOk = true
      · subst hok
        refine ⟨by simp [hs], ?_, by simp [hs]⟩
        intro j hj _ _
        cases hj
        simp [hs, getJob_setJobState, hg]
      · have hok' : sigOk = false := by simpa using hok
        subst hok'
        refine ⟨by simp [hs], ?_, by simp [hs]⟩
        intro j hj hjs hfalse
        cases hfalse
    · refine ⟨by simp [hs], ?_, by simp [hs]⟩
      intro j hj hjs
      cases hj
      exact absurd hjs hs

/-- **C8.** `KillJob` fails, changing nothing, when the job is absent
or already `Done`; from `Running` and `Stopped` alike it succeeds when
the terminate signal is delivered, setting state `Done` with the
sentinel exit code `-1`; a signal-delivery failure changes nothing. -/
theorem killJob_spec (jm : JobManager) (id : Nat) (sigOk : Bool) :
    ((KillJob jm id sigOk).1 = none ↔
        (∃ j, GetJob jm id = some j ∧ j.state ≠ .done) ∧ sigOk = true) ∧
      (∀ j, GetJob jm id = some j → j.state ≠ .done → sigOk = true →
        GetJob (KillJob jm id sigOk).2 id =
          some { j with state := .done, exitCode := -1 }) ∧
      ((KillJob jm id sigOk).1 ≠ none → (KillJob jm id sigOk).2 = jm) := by
  simp only [KillJob]
  rcases hg : GetJob jm id with _ | job
  · refine ⟨by simp, ?_, by simp⟩
    intro j hj; cases hj
  · by_cases hs : job.state = .done
    · refine ⟨by simp [hs], ?_, by simp [hs]⟩
      intro j hj hjs
      cases hj
      exact absurd hs hjs
    · by_cases hok : sigOk = true
      · subst hok
        refine ⟨by simp [hs], ?_, by simp [hs]⟩
        intro j hj _ _
        cases hj
        simp [hs, getJob_setJobStateExit, hg]
      · have hok' : sigOk = false := by simpa using hok
        subst hok'
        refine ⟨by simp [hs], ?_, by simp [hs]⟩
        intro j hj hjs hfalse
        cases hfalse

/-- **C9.** `BringToForeground` and `SendToBackground` both fail with
`notFound` on an unknown id and with `alreadyDone` once the job's state
is `Done`, leaving the manager untouched in all four cases; and
`SendToBackground` on a job already `Running` is a successful no-op. -/
theorem fg_bg_notFound_done_spec (jm : JobManager) (id : Nat)
    (contOk waitOk : Bool) (ec : Int) :
    (GetJob jm id = none →
        BringToForeground jm id contOk waitOk ec = (some (.notFound id), jm) ∧
        SendToBackground jm id contOk = (some (.notFound id), jm)) ∧
      (∀ j, GetJob jm id = some j → j.state = .done →
        BringToForeground jm id contOk waitOk ec = (some (.alreadyDone id), jm) ∧
        SendToBackground jm id contOk = (some (.alreadyDone id), jm)) ∧
      (∀ j, GetJob jm id = some j → j.state = .running →
        SendToBackground jm id contOk = (none, jm)) := by
  refine ⟨?_, ?_, ?_⟩
  · intro hg
    constructor
    · simp [BringToForeground, hg]
    · simp [SendToBackground, hg]
  · intro j hg hs
    constructor
    · simp [BringToForeground, hg, hs]
    · simp [SendToBackground, hg, hs]
  · intro j hg hs
    simp [SendToBackground, hg, hs]

/-! ### Concrete witnesses for the job-manager theorems -/

def jobRunning1 : Job :=
  { id := 1, pid := 100, pgid := 100, command := "sleep 5",
    state := .running, exitCode := 0, startTime := 0 }

def jobDone2 : Job :=
  { id := 2, pid := 200, pgid := 200, command := "true",
    state := .done, exitCode := 0, startTime := 0 }

def jmSample : JobManager :=
  { jobs := [jobRunning1, jobDone2], nextID := 3 }

theorem stopJob_spec_witness :
    (StopJob jmSample 1 true).1 = none ∧
      GetJob (StopJob jmSample 1 true).2 1 =
        some { jobRunning1 with state := .stopped } := by
  refine ⟨?_, ?_⟩
  · exact (stopJob_spec jmSample 1 true).1.mpr ⟨⟨jobRunning1, rfl, rfl⟩, rfl⟩
  · exact (stopJob_spec jmSample 1 true).2.1 jobRunning1 rfl rfl rfl

theorem killJob_spec_witness :
    (KillJob jmSample 2 true).1 ≠ none → (KillJob jmSample 2 true).2 = jmSample := by
  exact (killJob_spec jmSample 2 true).2.2

theorem fg_bg_spec_witness :
    BringToForeground jmSample 2 true true 0 = (some (.alreadyDone 2), jmSample) ∧
      SendToBackground jmSample 1 true = (none, jmSample) := by
  refine ⟨?_, ?_⟩
  · exact ((fg_bg_notFound_done_spec jmSample 2 true true 0).2.1 jobDone2 rfl rfl).1
  · exact (fg_bg_notFound_done_spec jmSample 1 true true 0).2.2 jobRunning1 rfl rfl

/-! ## Builtin dispatch table (`internal/builtins/builtins.go`)

Only the boolean "continue the shell loop" results matter to the
executor.  In the Go source every builtin returns a constant on every
control path: `exitCommand` alone returns `false`; `cd`, `pwd`, `help`,
`env`, `history`, `jobs`, `fg` and `bg` return `true` on all paths
(their side effects — chdir, printing, job-control calls — do not
influence the returned boolean). -/

def exitCommand (_args : List String) : Bool := false
def cdCommand (_args : List String) : Bool := true
def pwdCommand (_args : List String) : Bool := true
def helpCommand (_args : List String) : Bool := true
def envCommand (_args : List String) : Bool := true
def historyCommand (_args : List String) : Bool := true
def jobsCommand (_args : List String) : Bool := true
def fgCommand (_args : List String) : Bool := true
def bgCommand (_args : List String) : Bool := true

/-- The `builtinCommands` map. -/
def builtinCommands : List (String × (List String → Bool)) :=
  [("exit", exitCommand), ("cd", cdCommand), ("pwd", pwdCommand),
   ("help", helpCommand), ("env", envCommand), ("history", historyCommand),
   ("jobs", jobsCommand), ("fg", fgCommand), ("bg", bgCommand)]

/-- `builtins.IsBuiltin`. -/
def IsBuiltin (command : String) : Bool :=
  (builtinCommands.lookup command).isSome

/-- `builtins.Execute`: dispatch through the map, `true` for unknown
names. -/
def ExecuteBuiltin (command : String) (args : List String) : Bool :=
  match builtinCommands.lookup command with
  | some fn => fn args
  | none => true

/-! ## Pipeline executor (`internal/executor/executor.go`)

The `Command` and `Pipeline` shapes come from `internal/input`.
`exec.Cmd` stream wiring is modelled by `Proc`: in Go a `nil`
`Stdin`/`Stdout` connects the child to the null device, so `unset` is
kept distinct from `inherited` (explicit `os.Stdin`/`os.Stdout`).

`ExecEnv` is the OS oracle: whether `os.Open`/`os.Create`+`OpenFile`
succeed per path, which pid (or failure) the i-th `Start()` call
produces, whether the i-th `StdoutPipe()` call succeeds, and whether
the i-th `Wait()` reports an error.

`ExecResult` records the externally visible outcome of
`ExecuteCommand`/`ExecutePipeline`: the returned continue flag, the
reported errors, a builtin invocation (if any), the final stream wiring
of the created commands, the pipe connections made, how many processes
were started and waited for, the printed job-start notice, and every
job-table registration performed.  The executor package never
references the `jobs` package, so no code path appends to
`jobAdds`. -/

structure Command where
  args : List String := []
  inputFile : String := ""
  outputFile : String := ""
  appendOutput : Bool := false
  background : Bool := false
deriving DecidableEq, Inhabited

structure Pipeline where
  commands : List Command := []
  background : Bool := false
deriving DecidableEq

inductive StdinSrc where
| unset
| inherited
| file (path : String)
| pipeFrom (i : Nat)
deriving DecidableEq

inductive StdoutDst where
| unset
| inherited
| file (path : String) (append : Bool)
| pipeTo (i : Nat)
deriving DecidableEq

structure Proc where
  prog : String
  argv : List String
  stdin : StdinSrc
  stdout : StdoutDst
deriving DecidableEq

inductive ExecError where
| cannotPipeBuiltin (prog : String)
| redirectionIn (path : String)
| redirectionOut (path : String)
| pipeCreate (i : Nat)
| spawnFailed (i : Nat)
| waitErr (i : Nat)
deriving DecidableEq

structure ExecEnv where
  openInOk : String → Bool
  openOutOk : String → Bool
  spawnPid : Nat → Option Nat
  pipeOk : Nat → Bool
  waitOk : Nat → Bool

structure ExecResult where
  cont : Bool
  errors : List ExecError := []
  builtinCall : Option (String × List String) := none
  procs : List Proc := []
  pipes : List (Nat × Nat) := []
  startedCount : Nat := 0
  waitedCount : Nat := 0
  notice : Option (Nat × Nat) := none
  jobAdds : List (Nat × String) := []
deriving DecidableEq

/-- Stdin wiring of stage `i`: only stage 0 binds (`inputFile` if set,
else the shell's stdin); later stages are left unset here (the pipe
loop fills them in).  With `i = 0` this is also `ExecuteCommand`'s
input-redirection block. -/
def stdinFor (env : ExecEnv) (i : Nat) (c : Command) : Except ExecError StdinSrc :=
  if i = 0 then
    if c.inputFile ≠ "" then
      if env.openInOk c.inputFile then .ok (.file c.inputFile)
      else .error (.redirectionIn c.inputFile)
    else .ok .inherited
  else .ok .unset

/-- Stdout wiring of stage `i` of `n`: only stage `n-1` binds
(`outputFile` created or opened for append if set, else the shell's
stdout).  With `n = 1`, `i = 0` this is also `ExecuteCommand`'s
output-redirection block. -/
def stdoutFor (env : ExecEnv) (n i : Nat) (c : Command) : Except ExecError StdoutDst :=
  if i = n - 1 then
    if c.outputFile ≠ "" then
      if env.openOutOk c.outputFile then .ok (.file c.outputFile c.appendOutput)
      else .error (.redirectionOut c.outputFile)
    else .ok .inherited
  else .ok .unset

/-- One iteration of `ExecutePipeline`'s first loop at original stage
index `i` (of `n` stages): skip an empty-args stage (`none`), abort on
a builtin name, otherwise create the `exec.Cmd` with the edge-stage
redirections applied. -/
def buildStage (env : ExecEnv) (n i : Nat) (c : Command) :
    Except ExecError (Option Proc) :=
  match c.args with
  | [] => .ok none
  | prog :: argv =>
    if IsBuiltin prog then .error (.cannotPipeBuiltin prog)
    else
      match stdinFor env i c with
      | .error e => .error e
      | .ok sin =>
        match stdoutFor env n i c with
        | .error e => .error e
        | .ok sout =>
          .ok (some { prog := prog, argv := argv, stdin := sin, stdout := sout })

/-- `ExecutePipeline`'s first loop: visit the stages in order starting
at index `i`, collecting the created commands (`cmds` in the Go code)
and stopping at the first error. -/
def buildStages (env : ExecEnv) (n : Nat) : Nat → List Command → Except ExecError (List Proc)
| _, [] => .ok []
| i, c :: rest =>
  match buildStage env n i c with
  | .error e => .error e
  | .ok none => buildStages env n (i + 1) rest
  | .ok (some p) =>
    match buildStages env n (i + 1) rest with
    | .error e => .error e
    | .ok ps => .ok (p :: ps)

/-- `ExecutePipeline`'s pipe loop (`for i := 0; i < len(cmds)-1; i++`):
connect `cmds[i]`'s stdout to `cmds[i+1]`'s stdin, recorded as the
pair `(i, i+1)`; stop at the first `StdoutPipe` failure, keeping the
connections already made.  The head of the argument list is `cmds[i]`;
the modified `cmds[i+1]` is passed on as the next head. -/
def connectPipes (env : ExecEnv) : Nat → Proc → List Proc →
    List Proc × List (Nat × Nat) × Option ExecError
| _, p, [] => ([p], [], none)
| i, p, q :: rest =>
  if env.pipeOk i then
    match connectPipes env (i + 1) { q with stdin := .pipeFrom i } rest with
    | (ps, pipes, e) =>
      ({ p with stdout := .pipeTo (i + 1) } :: ps, (i, i + 1) :: pipes, e)
  else (p :: q :: rest, [], some (.pipeCreate i))

/-- The pipe loop applied to the whole `cmds` list (no iterations when
there are fewer than two commands). -/
def connectAll (env : ExecEnv) : List Proc →
    List Proc × List (Nat × Nat) × Option ExecError
| [] => ([], [], none)
| p :: rest => connectPipes env 0 p rest

/-- `ExecutePipeline`'s start loop: `Start()` each command in order,
returning the spawned pids, or the index of the first failing start
(the earlier commands are already running then). -/
def startAll (env : ExecEnv) : Nat → List Proc → Except ExecError (List Nat)
| _, [] => .ok []
| i, _ :: rest =>
  match env.spawnPid i with
  | none => .error (.spawnFailed i)
  | some pid =>
    match startAll env (i + 1) rest with
    | .error e => .error e
    | .ok pids => .ok (pid :: pids)

/-- `ExecutePipeline`'s wait loop: `Wait()` on each command in order,
reporting (not aborting on) each wait error. -/
def waitAll (env : ExecEnv) (n : Nat) : List ExecError :=
  (List.range n).filterMap (fun i => if env.waitOk i then none else some (.waitErr i))

/-- `executor.ExecuteCommand`: builtin dispatch, else redirection
wiring, then background `Start` (printing the notice with the
hard-coded job number `1`) or foreground `Run`.  Always returns `true`
for non-builtins. -/
def ExecuteCommand (env : ExecEnv) (cmd : Command) : ExecResult :=
  match cmd.args with
  | [] => { cont := true }
  | prog :: argv =>
    if IsBuiltin prog then
      { cont := ExecuteBuiltin prog argv, builtinCall := some (prog, argv) }
    else
      match stdinFor env 0 cmd with
      | .error e => { cont := true, errors := [e] }
      | .ok sin =>
        match stdoutFor env 1 0 cmd with
        | .error e => { cont := true, errors := [e] }
        | .ok sout =>
          let proc : Proc := { prog := prog, argv := argv, stdin := sin, stdout := sout }
          if cmd.background then
            match env.spawnPid 0 with
            | some pid =>
              { cont := true, procs := [proc], startedCount := 1,
                notice := some (1, pid) }
            | none =>
              { cont := true, errors := [.spawnFailed 0], procs := [proc] }
          else
            match env.spawnPid 0 with
            | some _ =>
              if env.waitOk 0 then
                { cont := true, procs := [proc], startedCount := 1, waitedCount := 1 }
              else
                { cont := true, errors := [.waitErr 0], procs := [proc],
                  startedCount := 1, waitedCount := 1 }
            | none =>
              { cont := true, errors := [.spawnFailed 0], procs := [proc] }

/-- The multi-command arm of `executor.ExecutePipeline`.  On the
background path the Go code prints `fmt.Printf("[%d] %d\n", 1,
cmds[len(cmds)-1].Process.Pid)` — job number hard-coded to `1` — and
returns without touching the job table.  (When every stage had empty
args the Go expression `cmds[len(cmds)-1]` panics; that corner is
modelled as pid `getLastD 0` and is not relied on by any theorem.) -/
def ExecutePipelineMulti (env : ExecEnv) (p : Pipeline) : ExecResult :=
  match buildStages env p.commands.length 0 p.commands with
  | .error e => { cont := true, errors := [e] }
  | .ok procs0 =>
    match connectAll env procs0 with
    | (procs, pipes, some e) =>
      { cont := true, errors := [e], procs := procs, pipes := pipes }
    | (procs, pipes, none) =>
      match startAll env 0 procs with
      | .error (.spawnFailed j) =>
        { cont := true, errors := [.spawnFailed j], procs := procs, pipes := pipes,
          startedCount := j }
      | .error e =>
        { cont := true, errors := [e], procs := procs, pipes := pipes }
      | .ok pids =>
        if p.background then
          { cont := true, procs := procs, pipes := pipes,
            startedCount := procs.length, waitedCount := 0,
            notice := some (1, pids.getLastD 0) }
        else
          { cont := true, errors := waitAll env procs.length, procs := procs,
            pipes := pipes, startedCount := procs.length,
            waitedCount := procs.length }

/-- `executor.ExecutePipeline`: empty pipeline → no-op returning
`true`; single command → `ExecuteCommand` with the pipeline's
background flag copied onto the command; otherwise the multi-command
arm. -/
def ExecutePipeline (env : ExecEnv) (p : Pipeline) : ExecResult :=
  match p.commands with
  | [] => { cont := true }
  | [c] => ExecuteCommand env { c with background := p.background }
  | _ => ExecutePipelineMulti env p

/-! ### Concrete environments and claim theorems for the executor -/

/-- An environment in which every OS interaction succeeds; the i-th
started process gets pid `4242 + i`. -/
def envAllOk : ExecEnv :=
  { openInOk := fun _ => true, openOutOk := fun _ => true,
    spawnPid := fun i => some (4242 + i), pipeOk := fun _ => true,
    waitOk := fun _ => true }

/-- **C1 (code evidence).** Backgrounding `sleep 5` with a successful
start: the executor starts the process without waiting and prints a
notice, but performs no job-table registration whatsoever (the
`executor` package never calls `JobManager.AddJob`), so no job ever
becomes observable through `GetJob`/`GetJobs`. -/
theorem background_spawn_never_registers_job :
    (ExecutePipeline envAllOk
        { commands := [{ args := ["sleep", "5"] }], background := true }).jobAdds = [] ∧
    (ExecutePipeline envAllOk
        { commands := [{ args := ["sleep", "5"] }], background := true }).notice =
      some (1, 4242) ∧
    (ExecutePipeline envAllOk
        { commands := [{ args := ["sleep", "5"] }], background := true }).startedCount = 1 ∧
    (ExecutePipeline envAllOk
        { commands := [{ args := ["sleep", "5"] }], background := true }).waitedCount = 0 ∧
    (ExecutePipeline envAllOk
        { commands := [{ args := ["sleep", "5"] }], background := true }).cont = true :=
  ⟨rfl, rfl, rfl, rfl, rfl⟩

/-- **C2 (code evidence).** A successful two-stage background spawn
(`cat | wc &`, pids 4242 and 4243): the printed notice is `[1] 4243`
with the job number hard-coded to `1`, and nothing is registered with
the job table, so the printed number is not an id the job table
assigned. -/
theorem background_notice_hardcoded_one :
    (ExecutePipeline envAllOk
        { commands := [{ args := ["cat"] }, { args := ["wc"] }],
          background := true }).notice = some (1, 4243) ∧
    (ExecutePipeline envAllOk
        { commands := [{ args := ["cat"] }, { args := ["wc"] }],
          background := true }).jobAdds = [] ∧
    (ExecutePipeline envAllOk
        { commands := [{ args := ["cat"] }, { args := ["wc"] }],
          background := true }).startedCount = 2 ∧
    (ExecutePipeline envAllOk
        { commands := [{ args := ["cat"] }, { args := ["wc"] }],
          background := true }).waitedCount = 0 :=
  ⟨rfl, rfl, rfl, rfl⟩

/-- Among the registered builtins, exactly `exit` returns the
"stop the shell loop" result `false`. -/
theorem executeBuiltin_false_iff (prog : String) (argv : List String)
    (hb : IsBuiltin prog = true) :
    ExecuteBuiltin prog argv = false ↔ prog = "exit" := by
  have hmem : prog = "exit" ∨ prog = "cd" ∨ prog = "pwd" ∨ prog = "help" ∨
      prog = "env" ∨ prog = "history" ∨ prog = "jobs" ∨ prog = "fg" ∨ prog = "bg" := by
    by_contra hc
    push_neg at hc
    obtain ⟨h1, h2, h3, h4, h5, h6, h7, h8, h9⟩ := hc
    have e1 : (prog == "exit") = false := beq_eq_false_iff_ne.mpr h1
    have e2 : (prog == "cd") = false := beq_eq_false_iff_ne.mpr h2
    have e3 : (prog == "pwd") = false := beq_eq_false_iff_ne.mpr h3
    have e4 : (prog == "help") = false := beq_eq_false_iff_ne.mpr h4
    have e5 : (prog == "env") = false := beq_eq_false_iff_ne.mpr h5
    have e6 : (prog == "history") = false := beq_eq_false_iff_ne.mpr h6
    have e7 : (prog == "jobs") = false := beq_eq_false_iff_ne.mpr h7
    have e8 : (prog == "fg") = false := beq_eq_false_iff_ne.mpr h8
    have e9 : (prog == "bg") = false := beq_eq_false_iff_ne.mpr h9
    simp [IsBuiltin, builtinCommands, List.lookup, e1, e2, e3, e4, e5, e6, e7, e8, e9] at hb
  rcases hmem with h | h | h | h | h | h | h | h | h <;> subst h <;>
    simp [ExecuteBuiltin, builtinCommands, List.lookup, exitCommand, cdCommand,
      pwdCommand, helpCommand, envCommand, historyCommand, jobsCommand,
      fgCommand, bgCommand]

/-- **C5.** A single-command pipeline whose program is a registered
builtin: `ExecutePipeline` invokes the builtin synchronously and
returns its boolean result; no process is spawned and no notice is
printed even when the background flag is set (the result record shows
zero starts and no notice, independent of the flags); and the result is
`false` exactly for `exit`. -/
theorem executePipeline_single_builtin (env : ExecEnv) (p : Pipeline) (c : Command)
    (prog : String) (argv : List String)
    (hp : p.commands = [c]) (ha : c.args = prog :: argv) (hb : IsBuiltin prog = true) :
    ExecutePipeline env p =
      { cont := ExecuteBuiltin prog argv, builtinCall := some (prog, argv) } ∧
    (ExecuteBuiltin prog argv = false ↔ prog = "exit") := by
  obtain ⟨cmds, bg⟩ := p
  simp only at hp
  subst hp
  obtain ⟨cargs, cin, cout, capp, cbg⟩ := c
  simp only at ha
  subst ha
  refine ⟨?_, executeBuiltin_false_iff prog argv hb⟩
  simp [ExecutePipeline, ExecuteCommand, hb]

theorem executePipeline_single_builtin_witness :
    ExecutePipeline envAllOk { commands := [{ args := ["exit"] }], background := true } =
      { cont := ExecuteBuiltin "exit" [], builtinCall := some ("exit", []) } ∧
    (ExecuteBuiltin "exit" [] = false ↔ "exit" = "exit") :=
  executePipeline_single_builtin envAllOk
    { commands := [{ args := ["exit"] }], background := true }
    { args := ["exit"] } "exit" [] rfl rfl (by decide)

/-- An environment in which opening a file for input redirection always
fails. -/
def envInFail : ExecEnv :=
  { openInOk := fun _ => false, openOutOk := fun _ => true,
    spawnPid := fun i => some (4242 + i), pipeOk := fun _ => true,
    waitOk := fun _ => true }

/-- **C4 counterexample.** A three-stage pipeline whose middle stage
has empty args (parseable from `echo hi | > mid.txt | wc`): the
executor skips the empty stage, so only one pipe connection is created
although the claim demands `n - 1 = 2`; the run completes without any
reported error. -/
theorem pipeline_pipe_count_counterexample :
    (ExecutePipeline envAllOk
        { commands := [{ args := ["echo", "hi"] },
                       { args := [], outputFile := "mid.txt" },
                       { args := ["wc"] }],
          background := false }).pipes = [(0, 1)] ∧
    ({ commands := [{ args := ["echo", "hi"] },
                    { args := [], outputFile := "mid.txt" },
                    { args := ["wc"] }],
       background := false } : Pipeline).commands.length = 3 ∧
    (ExecutePipeline envAllOk
        { commands := [{ args := ["echo", "hi"] },
                       { args := [], outputFile := "mid.txt" },
                       { args := ["wc"] }],
          background := false }).errors = [] ∧
    (ExecutePipeline envAllOk
        { commands := [{ args := ["echo", "hi"] },
                       { args := [], outputFile := "mid.txt" },
                       { args := ["wc"] }],
          background := false }).pipes.length ≠ 3 - 1 :=
  ⟨rfl, rfl, rfl, by decide⟩

/-- **C6 counterexample.** A two-stage pipeline `cat < in.txt | pwd`
whose second stage is a builtin, run where the stage-0 input open
fails: the executor reports the redirection error, not the
cannot-pipe-builtin error the claim demands (stage 0's input open
happens before stage 1's builtin check). -/
theorem pipeline_builtin_error_counterexample :
    IsBuiltin "pwd" = true ∧
    ExecutePipeline envInFail
        { commands := [{ args := ["cat"], inputFile := "in.txt" }, { args := ["pwd"] }],
          background := false } =
      { cont := true, errors := [.redirectionIn "in.txt"] } ∧
    (∀ s, ExecError.redirectionIn "in.txt" ≠ ExecError.cannotPipeBuiltin s) := by
  refine ⟨rfl, rfl, ?_⟩
  intro s h
  cases h

/-- If some stage of the remaining command list names a builtin, and
the stage-0 input-file open (the only redirection attempted before a
later stage's builtin check) does not fail, then the build loop stops
at the first builtin stage with the cannot-pipe error. -/
theorem buildStages_finds_builtin (env : ExecEnv) (n : Nat) :
    ∀ (cmds : List Command) (j : Nat),
      j + cmds.length = n →
      (∃ c ∈ cmds, c.args ≠ [] ∧ IsBuiltin c.args.headI = true) →
      (j = 0 → cmds.headI.args ≠ [] → IsBuiltin cmds.headI.args.headI = false →
        cmds.headI.inputFile ≠ "" → env.openInOk cmds.headI.inputFile = true) →
      ∃ prog, IsBuiltin prog = true ∧
        buildStages env n j cmds = .error (.cannotPipeBuiltin prog) := by
  intro cmds
  induction cmds with
  | nil =>
    intro j hlen hex h0
    simp at hex
  | cons c rest ih =>
    intro j hlen hex h0
    rcases hargs : c.args with _ | ⟨a, t⟩
    · have hex' : ∃ c' ∈ rest, c'.args ≠ [] ∧ IsBuiltin c'.args.headI = true := by
        rcases hex with ⟨c', hc', hne, hbi⟩
        rcases List.mem_cons.mp hc' with h | h
        · subst h; exact absurd hargs hne
        · exact ⟨c', h, hne, hbi⟩
      obtain ⟨prog, hbp, hres⟩ := ih (j + 1)
        (by simp only [List.length_cons] at hlen; omega) hex'
        (fun h => absurd h (by omega))
      refine ⟨prog, hbp, ?_⟩
      simp only [buildStages, buildStage, hargs]
      exact hres
    · by_cases hba : IsBuiltin a = true
      · refine ⟨a, hba, ?_⟩
        simp [buildStages, buildStage, hargs, hba]
      · have hanot : IsBuiltin a = false := by simpa using hba
        have hex' : ∃ c' ∈ rest, c'.args ≠ [] ∧ IsBuiltin c'.args.headI = true := by
          rcases hex with ⟨c', hc', hne, hbi⟩
          rcases List.mem_cons.mp hc' with h | h
          · subst h
            rw [hargs] at hbi
            simp only [List.headI] at hbi
            exact absurd hbi hba
          · exact ⟨c', h, hne, hbi⟩
        have hrest : rest ≠ [] := by
          rcases hex' with ⟨c', hc', _⟩
          exact List.ne_nil_of_mem hc'
        have hjn : j ≠ n - 1 := by
          intro h
          apply hrest
          have hl : rest.length = 0 := by
            simp only [List.length_cons] at hlen
            omega
          exact List.eq_nil_of_length_eq_zero hl
        have hsin : ∃ sin, stdinFor env j c = .ok sin := by
          by_cases hj : j = 0
          · subst hj
            by_cases hf : c.inputFile = ""
            · exact ⟨.inherited, by simp [stdinFor, hf]⟩
            · have hok := h0 rfl (by simp [List.headI, hargs])
                (by simp [List.headI, hargs, hanot]) (by simpa [List.headI] using hf)
              exact ⟨.file c.inputFile, by simp [stdinFor, hf, List.headI] at hok ⊢; simp [hok]⟩
          · exact ⟨.unset, by simp [stdinFor, hj]⟩
        obtain ⟨sin, hsin⟩ := hsin
        have hsout : stdoutFor env n j c = .ok .unset := by simp [stdoutFor, hjn]
        obtain ⟨prog, hbp, hres⟩ := ih (j + 1)
          (by simp only [List.length_cons] at hlen; omega) hex'
          (fun h => absurd h (by omega))
        refine ⟨prog, hbp, ?_⟩
        simp only [buildStages, buildStage, hargs, hanot, hsin, hsout]
        simp [hres]

/-- **C6 (amended).** In a multi-stage pipeline where some stage names
a builtin, provided the stage-0 input-file open does not fail first
(it is attempted before later stages' builtin checks), the executor
reports the cannot-pipe-builtin error, starts no stage, creates no
pipe, and returns `true`. -/
theorem executePipeline_builtin_aborts (env : ExecEnv) (p : Pipeline)
    (hn : 2 ≤ p.commands.length)
    (hex : ∃ c ∈ p.commands, c.args ≠ [] ∧ IsBuiltin c.args.headI = true)
    (h0 : p.commands.headI.args ≠ [] → IsBuiltin p.commands.headI.args.headI = false →
      p.commands.headI.inputFile ≠ "" → env.openInOk p.commands.headI.inputFile = true) :
    ∃ prog, IsBuiltin prog = true ∧
      ExecutePipeline env p = { cont := true, errors := [.cannotPipeBuiltin prog] } := by
  obtain ⟨prog, hbp, hres⟩ := buildStages_finds_builtin env p.commands.length
    p.commands 0 (Nat.zero_add _) hex (fun _ => h0)
  refine ⟨prog, hbp, ?_⟩
  have harm : ExecutePipeline env p = ExecutePipelineMulti env p := by
    rcases hcmds : p.commands with _ | ⟨c1, rest⟩
    · rw [hcmds] at hn; simp at hn
    · rcases rest with _ | ⟨c2, r2⟩
      · rw [hcmds] at hn; simp at hn
      · unfold ExecutePipeline
        rw [hcmds]
  rw [harm]
  unfold ExecutePipelineMulti
  rw [hres]

/-- Default `Proc` used with `List.getD`. -/
def dProc : Proc :=
  { prog := "", argv := [], stdin := .unset, stdout := .unset }

/-- Characterization of the build loop when every stage has nonempty
non-builtin args and every file open succeeds: one command per stage,
with stdin bound only at original index 0 and stdout only at original
index `n - 1`, everything else unset. -/
theorem buildStages_ok (env : ExecEnv) (n : Nat)
    (hin : ∀ f, env.openInOk f = true) (hout : ∀ f, env.openOutOk f = true) :
    ∀ (cmds : List Command) (j : Nat),
      (∀ c ∈ cmds, c.args ≠ [] ∧ IsBuiltin c.args.headI = false) →
      ∃ ps, buildStages env n j cmds = .ok ps ∧ ps.length = cmds.length ∧
        ∀ k, k < cmds.length →
          ps.getD k dProc =
            { prog := (cmds.getD k default).args.headI,
              argv := (cmds.getD k default).args.tail,
              stdin :=
                if j + k = 0 then
                  (if (cmds.getD k default).inputFile = "" then .inherited
                   else .file (cmds.getD k default).inputFile)
                else .unset,
              stdout :=
                if j + k = n - 1 then
                  (if (cmds.getD k default).outputFile = "" then .inherited
                   else .file (cmds.getD k default).outputFile
                     (cmds.getD k default).appendOutput)
                else .unset } := by
  intro cmds
  induction cmds with
  | nil =>
    intro j _
    exact ⟨[], rfl, rfl, fun k hk => absurd hk (by simp)⟩
  | cons c rest ih =>
    intro j hall
    obtain ⟨hne, hnb⟩ := hall c (List.mem_cons_self c rest)
    rcases hargs : c.args with _ | ⟨a, t⟩
    · exact absurd hargs hne
    · have hnba : IsBuiltin a = false := by
        rw [hargs] at hnb; simpa only [List.headI] using hnb
      have hsin : stdinFor env j c =
          .ok (if j = 0 then
                (if c.inputFile = "" then .inherited else .file c.inputFile)
               else .unset) := by
        by_cases hj : j = 0
        · subst hj
          by_cases hf : c.inputFile = ""
          · simp [stdinFor, hf]
          · simp [stdinFor, hf, hin]
        · simp [stdinFor, hj]
      have hsout : stdoutFor env n j c =
          .ok (if j = n - 1 then
                (if c.outputFile = "" then .inherited
                 else .file c.outputFile c.appendOutput)
               else .unset) := by
        by_cases hj : j = n - 1
        · by_cases hf : c.outputFile = ""
          · simp [stdoutFor, hj, hf]
          · simp [stdoutFor, hj, hf, hout]
        · simp [stdoutFor, hj]
      have hbs : buildStage env n j c =
          .ok (some { prog := a, argv := t,
                      stdin := if j = 0 then
                            (if c.inputFile = "" then .inherited
                             else .file c.inputFile)
                          else .unset,
                      stdout := if j = n - 1 then
                            (if c.outputFile = "" then .inherited
                             else .file c.outputFile c.appendOutput)
                          else .unset }) := by
        simp only [buildStage, hargs, hnba, hsin, hsout]
        simp
      obtain ⟨ps, hps, hlen, hpt⟩ :=
        ih (j + 1) (fun c' hc' => hall c' (List.mem_cons_of_mem _ hc'))
      refine ⟨{ prog := a, argv := t,
                stdin := if j = 0 then
                      (if c.inputFile = "" then .inherited
                       else .file c.inputFile)
                    else .unset,
                stdout := if j = n - 1 then
                      (if c.outputFile = "" then .inherited
                       else .file c.outputFile c.appendOutput)
                    else .unset } :: ps, ?_, by simp [hlen], ?_⟩
      · simp only [buildStages, hbs, hps]
      · intro k hk
        cases k with
        | zero =>
          simp only [List.getD_cons_zero, Nat.add_zero]
          simp [hargs]
        | succ m =>
          have hm : m < rest.length := by
            simp only [List.length_cons] at hk; omega
          have h2 := hpt m hm
          simp only [List.getD_cons_succ]
          rw [show j + (m + 1) = j + 1 + m from by omega]
          exact h2

/-- Characterization of the pipe loop when every `StdoutPipe` call
succeeds: starting at loop index `i` with current head `p` and tail
`rest`, every adjacent pair is connected, and the elements keep their
program, arguments and untouched edge streams. -/
theorem connectPipes_all_ok (env : ExecEnv) (hpipe : ∀ i, env.pipeOk i = true) :
    ∀ (rest : List Proc) (i : Nat) (p : Proc),
      ∃ ps pipes,
        connectPipes env i p rest = (ps, pipes, none) ∧
        ps.length = rest.length + 1 ∧
        pipes = (List.range' i rest.length).map (fun k => (k, k + 1)) ∧
        ∀ k, k ≤ rest.length →
          ps.getD k dProc =
            { prog := ((p :: rest).getD k dProc).prog,
              argv := ((p :: rest).getD k dProc).argv,
              stdin := if k = 0 then p.stdin else .pipeFrom (i + k - 1),
              stdout := if k = rest.length then ((p :: rest).getD k dProc).stdout
                        else .pipeTo (i + k + 1) } := by
  intro rest
  induction rest with
  | nil =>
    intro i p
    refine ⟨[p], [], rfl, rfl, rfl, ?_⟩
    intro k hk
    have hk0 : k = 0 := Nat.le_zero.mp hk
    subst hk0
    simp
  | cons q rest' ih =>
    intro i p
    obtain ⟨ps', pipes', hcp, hlen, hpipes, hpt⟩ :=
      ih (i + 1) { q with stdin := .pipeFrom i }
    refine ⟨{ p with stdout := .pipeTo (i + 1) } :: ps', (i, i + 1) :: pipes',
      ?_, by simp [hlen], ?_, ?_⟩
    · simp only [connectPipes, hpipe i, if_true, hcp]
    · rw [hpipes]
      simp [List.range'_succ]
    · intro k hk
      cases k with
      | zero =>
        simp only [List.getD_cons_zero]
        have hlne : (0 : Nat) ≠ rest'.length + 1 := by omega
        simp [List.length_cons, hlne]
      | succ m =>
        have hm : m ≤ rest'.length := by
          simp only [List.length_cons] at hk; omega
        have h2 := hpt m hm
        simp only [List.getD_cons_succ]
        rw [h2]
        have e1 : ((({ q with stdin := StdinSrc.pipeFrom i } : Proc) :: rest').getD m dProc).prog =
            ((q :: rest').getD m dProc).prog := by
          cases m <;> simp
        have e2 : ((({ q with stdin := StdinSrc.pipeFrom i } : Proc) :: rest').getD m dProc).argv =
            ((q :: rest').getD m dProc).argv := by
          cases m <;> simp
        have e3 : ((({ q with stdin := StdinSrc.pipeFrom i } : Proc) :: rest').getD m dProc).stdout =
            ((q :: rest').getD m dProc).stdout := by
          cases m <;> simp
        rw [e1, e2, e3]
        have e4 : (if m = 0 then ({ q with stdin := StdinSrc.pipeFrom i } : Proc).stdin
              else StdinSrc.pipeFrom (i + 1 + m - 1)) =
            StdinSrc.pipeFrom (i + (m + 1) - 1) := by
          by_cases hm0 : m = 0
          · subst hm0; simp
          · rw [if_neg hm0]
            congr 1
            omega
        have e5 : (if m = rest'.length then ((q :: rest').getD m dProc).stdout
              else StdoutDst.pipeTo (i + 1 + m + 1)) =
            (if m + 1 = (q :: rest').length then ((q :: rest').getD m dProc).stdout
              else StdoutDst.pipeTo (i + (m + 1) + 1)) := by
          by_cases hml : m = rest'.length
          · rw [if_pos hml, if_pos (by simp [hml])]
          · rw [if_neg hml, if_neg (by simp; omega)]
            congr 1
            omega
        rw [e4, e5]
        simp

/-- **C4 (amended).** For a pipeline of `n ≥ 2` stages, all with
nonempty non-builtin args, run where every file open and every pipe
creation succeeds: exactly `n - 1` pipe connections are made, joining
stage `k`'s stdout to stage `k+1`'s stdin for `0 ≤ k < n-1`; stage 0's
stdin is the only file/inherited input binding (`inputFile` if set) and
stage `n-1`'s stdout the only file/inherited output binding
(`outputFile`/`appendOutput` if set); interior stages' redirection
fields have no effect since their streams are pipe ends. -/
theorem executePipeline_wiring (env : ExecEnv) (p : Pipeline)
    (hn : 2 ≤ p.commands.length)
    (hall : ∀ c ∈ p.commands, c.args ≠ [] ∧ IsBuiltin c.args.headI = false)
    (hin : ∀ f, env.openInOk f = true) (hout : ∀ f, env.openOutOk f = true)
    (hpipe : ∀ i, env.pipeOk i = true) :
    (ExecutePipeline env p).pipes =
      (List.range (p.commands.length - 1)).map (fun k => (k, k + 1)) ∧
    (ExecutePipeline env p).procs.length = p.commands.length ∧
    (∀ k, 0 < k → k < p.commands.length →
      ((ExecutePipeline env p).procs.getD k dProc).stdin = .pipeFrom (k - 1)) ∧
    (∀ k, k + 1 < p.commands.length →
      ((ExecutePipeline env p).procs.getD k dProc).stdout = .pipeTo (k + 1)) ∧
    ((ExecutePipeline env p).procs.getD 0 dProc).stdin =
      (if (p.commands.getD 0 default).inputFile = "" then .inherited
       else .file (p.commands.getD 0 default).inputFile) ∧
    ((ExecutePipeline env p).procs.getD (p.commands.length - 1) dProc).stdout =
      (if (p.commands.getD (p.commands.length - 1) default).outputFile = "" then .inherited
       else .file (p.commands.getD (p.commands.length - 1) default).outputFile
         (p.commands.getD (p.commands.length - 1) default).appendOutput) := by
  obtain ⟨ps0, hps0, hlen0, hpt0⟩ :=
    buildStages_ok env p.commands.length hin hout p.commands 0 hall
  rcases hsh : ps0 with _ | ⟨p0, rest0⟩
  · rw [hsh] at hlen0; simp at hlen0; omega
  subst hsh
  have hr0len : rest0.length = p.commands.length - 1 := by
    simp only [List.length_cons] at hlen0; omega
  obtain ⟨ps, pipes, hcp, hlen, hpipes, hpt⟩ :=
    connectPipes_all_ok env hpipe rest0 0 p0
  have hca : connectAll env (p0 :: rest0) = (ps, pipes, none) := by
    simp only [connectAll, hcp]
  have hr : (ExecutePipeline env p).procs = ps ∧ (ExecutePipeline env p).pipes = pipes := by
    have harm : ExecutePipeline env p = ExecutePipelineMulti env p := by
      rcases hcmds : p.commands with _ | ⟨c1, rest⟩
      · rw [hcmds] at hn; simp at hn
      · rcases rest with _ | ⟨c2, r2⟩
        · rw [hcmds] at hn; simp at hn
        · unfold ExecutePipeline
          rw [hcmds]
    rw [harm]
    unfold ExecutePipelineMulti
    simp only [hps0, hca]
    rcases hsa : startAll env 0 ps with e | pids
    · cases e <;> simp [hsa]
    · by_cases hbg : p.background <;> simp [hsa, hbg]
  have hframe : ∀ k, k < p.commands.length →
      ((ExecutePipeline env p).procs.getD k dProc) =
        { prog := (((p0 :: rest0).getD k dProc)).prog,
          argv := (((p0 :: rest0).getD k dProc)).argv,
          stdin := if k = 0 then p0.stdin else .pipeFrom (0 + k - 1),
          stdout := if k = rest0.length then ((p0 :: rest0).getD k dProc).stdout
                    else .pipeTo (0 + k + 1) } := by
    intro k hk
    rw [hr.1]
    exact hpt k (by omega)
  refine ⟨?_, ?_, ?_, ?_, ?_, ?_⟩
  · rw [hr.2, hpipes, hr0len, List.range_eq_range']
  · rw [hr.1, hlen]; omega
  · intro k hk0 hk
    rw [hframe k hk]
    simp only [if_neg (by omega : ¬k = 0)]
    congr 1
    omega
  · intro k hk
    rw [hframe k (by omega)]
    simp only [if_neg (by omega : ¬k = rest0.length)]
    simp
  · have h0 := hframe 0 (by omega)
    rw [h0]
    have hb0 := hpt0 0 (by omega)
    simp only [List.getD_cons_zero] at hb0
    rw [hb0]
    simp
  · have hlast := hframe (p.commands.length - 1) (by omega)
    rw [hlast]
    simp only [if_pos (by omega : p.commands.length - 1 = rest0.length)]
    have hblast := hpt0 (p.commands.length - 1) (by omega)
    rw [hblast]
    simp

theorem executePipeline_wiring_witness :
    ((ExecutePipeline envAllOk
        { commands := [{ args := ["cat"], inputFile := "a.txt" },
                       { args := ["grep", "x"] },
                       { args := ["wc"], outputFile := "b.txt", appendOutput := true }],
          background := false }).pipes =
      (List.range 2).map (fun k => (k, k + 1))) ∧
    ((ExecutePipeline envAllOk
        { commands := [{ args := ["cat"], inputFile := "a.txt" },
                       { args := ["grep", "x"] },
                       { args := ["wc"], outputFile := "b.txt", appendOutput := true }],
          background := false }).procs.length = 3) := by
  have h := executePipeline_wiring envAllOk
    { commands := [{ args := ["cat"], inputFile := "a.txt" },
                   { args := ["grep", "x"] },
                   { args := ["wc"], outputFile := "b.txt", appendOutput := true }],
      background := false }
    (by decide) (by decide) (fun f => rfl) (fun f => rfl) (fun i => rfl)
  exact ⟨h.1, h.2.1⟩

theorem executePipeline_builtin_aborts_witness :
    ∃ prog, IsBuiltin prog = true ∧
      ExecutePipeline envAllOk
          { commands := [{ args := ["ls"] }, { args := ["pwd"] }], background := false } =
        { cont := true, errors := [.cannotPipeBuiltin prog] } :=
  executePipeline_builtin_aborts envAllOk
    { commands := [{ args := ["ls"] }, { args := ["pwd"] }], background := false }
    (by decide) ⟨{ args := ["pwd"] }, by decide, by decide, by decide⟩ (by decide)

/-! ## Pipeline parser (`internal/input/input.go`, `ParsePipeline`)

`strings.TrimSpace`, `strings.Contains`, `strings.HasSuffix`,
`strings.TrimSuffix`, `strings.Split` and `strings.Fields` are
modelled on the character lists underlying `String`.
Environment-variable expansion (`expandArgsVariables`, which reads the
process environment through `os.Getenv` and two regexes) is passed in
as an opaque function parameter, as the spec treats it as an external
collaborator. -/

/-- `unicode.IsSpace` (the class used by Go's `TrimSpace` and
`Fields`). -/
def isGoSpace (c : Char) : Bool :=
  c == '\t' || c == '\n' || c == Char.ofNat 11 || c == Char.ofNat 12 || c == '\r' ||
    c == ' ' || c == Char.ofNat 0x85 || c == Char.ofNat 0xA0 ||
    c == Char.ofNat 0x1680 ||
    (0x2000 ≤ c.toNat && c.toNat ≤ 0x200a) ||
    c == Char.ofNat 0x2028 || c == Char.ofNat 0x2029 || c == Char.ofNat 0x202f ||
    c == Char.ofNat 0x205f || c == Char.ofNat 0x3000

/-- `strings.TrimSpace`. -/
def goTrimSpace (s : String) : String :=
  String.mk (((s.data.dropWhile isGoSpace).reverse.dropWhile isGoSpace).reverse)

/-- `strings.Contains s sub`. -/
def strContains (s sub : String) : Bool :=
  decide (sub.data <:+: s.data)

/-- `strings.HasSuffix`. -/
def goHasSuffix (s suf : String) : Bool :=
  decide (suf.data <:+ s.data)

/-- `strings.TrimSuffix` (removes one trailing occurrence). -/
def goTrimSuffix (s suf : String) : String :=
  if goHasSuffix s suf then String.mk (s.data.take (s.data.length - suf.data.length))
  else s

/-- Helper for `strings.Fields`: split around runs of white space. -/
def fieldsAux : List Char → List Char → List String
| [], acc => if acc.isEmpty then [] else [String.mk acc.reverse]
| c :: cs, acc =>
  if isGoSpace c then
    if acc.isEmpty then fieldsAux cs [] else String.mk acc.reverse :: fieldsAux cs []
  else fieldsAux cs (c :: acc)

/-- `strings.Fields`. -/
def goFields (s : String) : List String :=
  fieldsAux s.data []

/-- The token loop inside `ParsePipeline`'s per-segment parsing: `>`,
`>>` and `<` consume the following token as the file name (last token
wins; a trailing operator with no following token is dropped); every
other token is appended to the args.  Unlike `ParseCommand`, this loop
has no `&` case — the background flag was stripped from the line
earlier. -/
def parseTokensPipe : List String → Command → Command
| [], c => c
| tok :: rest, c =>
  if tok = ">" then
    match rest with
    | f :: rest2 => parseTokensPipe rest2 { c with outputFile := f, appendOutput := false }
    | [] => c
  else if tok = ">>" then
    match rest with
    | f :: rest2 => parseTokensPipe rest2 { c with outputFile := f, appendOutput := true }
    | [] => c
  else if tok = "<" then
    match rest with
    | f :: rest2 => parseTokensPipe rest2 { c with inputFile := f }
    | [] => c
  else parseTokensPipe rest { c with args := c.args ++ [tok] }

/-- `input.ParsePipeline`: trim; empty line → empty pipeline; a line
containing the escape character `0x1b` or the two-character sequence
`^[` → empty pipeline (escape-sequence filter); otherwise strip one
trailing `&` (setting the pipeline's background flag), split on `|`,
and parse each nonempty trimmed segment into a `Command`, expanding
environment variables in its args. -/
def ParsePipeline (expandArgs : List String → List String) (line : String) : Pipeline :=
  let l1 := goTrimSpace line
  if l1 = "" then { commands := [], background := false }
  else if strContains l1 "\x1b" || strContains l1 "^[" then
    { commands := [], background := false }
  else
    let bg := goHasSuffix l1 "&"
    let l2 := if bg then goTrimSpace (goTrimSuffix l1 "&") else l1
    let segs := l2.splitOn "|"
    let cmds := segs.foldl
      (fun acc seg =>
        let seg2 := goTrimSpace seg
        if seg2 = "" then acc
        else
          let c := parseTokensPipe (goFields seg2) {}
          acc ++ [{ c with args := expandArgs c.args }])
      []
    { commands := cmds, background := bg }

/-- A nonempty pattern free of white-space characters survives
`dropWhile isGoSpace`-style trimming as an infix. -/
theorem infix_dropWhile_of_no_space {p : Char → Bool} {sub : List Char} (l : List Char)
    (hne : sub ≠ []) (hs : ∀ ch ∈ sub, p ch = false) (h : sub <:+: l) :
    sub <:+: l.dropWhile p := by
  induction l with
  | nil => simpa using h
  | cons a l ih =>
    by_cases hp : p a = true
    · rw [List.dropWhile_cons_of_pos hp]
      apply ih
      rcases List.infix_cons_iff.mp h with hpre | hinf
      · exfalso
        rcases hsub : sub with _ | ⟨s0, stail⟩
        · exact hne hsub
        · rw [hsub] at hpre
          have hs0 : s0 = a := (List.cons_prefix_cons.mp hpre).1
          have hps0 := hs s0 (by rw [hsub]; exact List.mem_cons_self _ _)
          rw [hs0] at hps0
          rw [hps0] at hp
          cases hp
      · exact hinf
    · rw [List.dropWhile_cons_of_neg hp]
      exact h

/-- A nonempty white-space-free pattern contained in a string is still
contained after `strings.TrimSpace`. -/
theorem strContains_goTrimSpace (s sub : String) (hne : sub.data ≠ [])
    (hs : ∀ ch ∈ sub.data, isGoSpace ch = false)
    (h : strContains s sub = true) :
    strContains (goTrimSpace s) sub = true := by
  simp only [strContains, goTrimSpace, decide_eq_true_eq] at h ⊢
  have h1 : sub.data <:+: s.data.dropWhile isGoSpace :=
    infix_dropWhile_of_no_space s.data hne hs h
  have h2 : sub.data.reverse <:+: (s.data.dropWhile isGoSpace).reverse :=
    List.reverse_infix.mpr h1
  have h3 : sub.data.reverse <:+: ((s.data.dropWhile isGoSpace).reverse).dropWhile isGoSpace :=
    infix_dropWhile_of_no_space _ (by simpa using hne)
      (fun ch hch => hs ch (List.mem_reverse.mp hch)) h2
  have h4 : sub.data.reverse <:+:
      ((((s.data.dropWhile isGoSpace).reverse).dropWhile isGoSpace).reverse).reverse := by
    rw [List.reverse_reverse]
    exact h3
  exact List.reverse_infix.mp h4

/-- **C10.** Any input line containing the ASCII escape character
`0x1b` or the two-character sequence `^[` parses to the empty pipeline
(zero commands, background off), and executing that result is a no-op
that returns `true` — regardless of what else the line says and of the
environment-variable expander. -/
theorem parsePipeline_drops_escape_lines (expandArgs : List String → List String)
    (line : String)
    (h : strContains line "\x1b" = true ∨ strContains line "^[" = true) :
    ParsePipeline expandArgs line = { commands := [], background := false } ∧
    ∀ env, ExecutePipeline env (ParsePipeline expandArgs line) = { cont := true } := by
  have hp : ParsePipeline expandArgs line = { commands := [], background := false } := by
    unfold ParsePipeline
    by_cases he : goTrimSpace line = ""
    · simp [he]
    · have hesc : (strContains (goTrimSpace line) "\x1b" ||
          strContains (goTrimSpace line) "^[") = true := by
        rcases h with h | h
        · have := strContains_goTrimSpace line "\x1b" (by decide) (by decide) h
          simp [this]
        · have := strContains_goTrimSpace line "^[" (by decide) (by decide) h
          simp [this]
      simp [he, hesc]
  refine ⟨hp, fun env => ?_⟩
  rw [hp]
  rfl

theorem parsePipeline_drops_escape_lines_witness :
    ParsePipeline (fun a => a) "ls \x1b[A" = { commands := [], background := false } ∧
    ExecutePipeline envAllOk (ParsePipeline (fun a => a) "ls \x1b[A") = { cont := true } := by
  have h := parsePipeline_drops_escape_lines (fun a => a) "ls \x1b[A"
    (Or.inl (by decide))
  exact ⟨h.1, h.2 envAllOk⟩

end Gosh
